import Mathlib

/-!
Verification of the nmea0183-parser framing layer, field combinator library
and derive-time attribute model.  The program is embedded shallowly: input
slices are lists of bytes (the Rust code operates on the bytes of `&str` or
`&[u8]` inputs), nom-style parsers become functions from a byte list to a
result that carries the remaining input or a structured error, and the
derive-time validation logic becomes functions over lists of attribute tags.
-/

namespace Nmea0183

/-- Input slices are lists of bytes (`Input + AsBytes` in the source). -/
abbrev Str := List Nat

/-- The nom `ErrorKind` values that the embedded code can produce. -/
inductive ErrKind where
  | char
  | tag
  | takeUntil
  | eof
  | count
  | isA
  | crLf
  | verify
  | digit
  | many0
  | switch
deriving DecidableEq, Repr

/-- Model of `nom::error::Error`: the offending input slice plus an error kind. -/
structure NomError where
  input : Str
  kind : ErrKind
deriving DecidableEq, Repr

/-- Model of `nom::Err`: recoverable error, unrecoverable failure, or incomplete. -/
inductive NErr (ε : Type) where
  | error (e : ε)
  | failure (e : ε)
  | incomplete
deriving DecidableEq, Repr

/-- Model of the crate error type `Error<I, E>` from src/error.rs, with the
inner `E` instantiated at `nom::error::Error` as in every use in the claims. -/
inductive NmeaError where
  | nonAscii
  | checksumMismatch (expected found : Nat)
  | parsingError (e : NomError)
  | unrecognizedMessage (i : Str)
  | invalidField (i : Str)
  | unknown
deriving DecidableEq, Repr

/-- Result of running a parser: remaining input and value, or an error. -/
inductive PResult (ε α : Type) where
  | ok (rem : Str) (val : α)
  | err (e : NErr ε)
deriving DecidableEq, Repr

/-- Whether a parser result is a success. -/
def PResult.isOk {ε α : Type} : PResult ε α → Bool
  | .ok _ _ => true
  | .err _ => false

/-- Results of parsers whose error type is the plain nom error. -/
abbrev LowRes (α : Type) := PResult NomError α

/-- Results of parsers whose error type is the crate `Error<I, E>` type. -/
abbrev NPRes (α : Type) := PResult NmeaError α

/-- Bytes of a string literal, for readable concrete inputs. -/
def strBytes (s : String) : Str := s.toList.map Char.toNat

/-- The bytes of CRLF. -/
def crlfBytes : Str := [13, 10]

/-- Model of `slice::is_ascii`: every byte is below 128. -/
def isAsciiStr (i : Str) : Bool := i.all (fun b => b < 128)

/-- Index of the first occurrence of `pat` as a contiguous substring
(`FindSubstring`, i.e. `str::find` / the search driving nom `take_until`). -/
def findSub (pat : Str) : Str → Option Nat
  | [] => if pat.isPrefixOf ([] : Str) then some 0 else none
  | b :: t =>
    if pat.isPrefixOf (b :: t) then some 0
    else (findSub pat t).map (fun k => k + 1)

/-- Model of `nom::character::complete::char` at the plain nom error level:
consume one byte equal to `c`, else a `Char`-kind error. -/
def chrLow (c : Nat) (i : Str) : LowRes Nat :=
  match i with
  | b :: rest => if b = c then .ok rest b else .err (.error ⟨i, .char⟩)
  | [] => .err (.error ⟨i, .char⟩)

/-- Byte is an ASCII hex digit (0-9, A-F, a-f). -/
def isHexDigit (b : Nat) : Bool :=
  (48 ≤ b && b ≤ 57) || (65 ≤ b && b ≤ 70) || (97 ≤ b && b ≤ 102)

/-- Numeric value of an ASCII hex digit byte. -/
def hexVal (b : Nat) : Nat :=
  if b ≤ 57 then b - 48 else if b ≤ 70 then b - 55 else b - 87

/-- Model of `nom::number::complete::hex_u32`: at least one hex digit (else an
`IsA`-kind error), at most eight are consumed, folded as base 16. -/
def hexU32 (i : Str) : LowRes Nat :=
  let ds := i.takeWhile isHexDigit
  if ds.isEmpty then .err (.error ⟨i, .isA⟩)
  else
    let parsed := ds.take 8
    .ok (i.drop parsed.length) (parsed.foldl (fun a b => a * 16 + hexVal b) 0)

/-- The two framing checksum modes (src/src/nmea0183/mod.rs). -/
inductive ChecksumMode where
  | required
  | optional
deriving DecidableEq, Repr

/-- The two framing line-ending modes (src/src/nmea0183/mod.rs). -/
inductive LineEndingMode where
  | required
  | forbidden
deriving DecidableEq, Repr

/-- Model of the source function `crlf(mode)`: run `opt(take_until("\r\n"))`;
in Required mode the CRLF must be present and nothing may remain after the
consumed CRLF (the `consumed(tag("\r\n"), ErrorKind::CrLf)` step), and the
pre-CRLF slice is returned as the remaining input; in Forbidden mode any CRLF
occurrence is a `CrLf`-kind error and the whole slice is returned. -/
def crlfP (mode : LineEndingMode) (i : Str) : LowRes Unit :=
  match findSub crlfBytes i with
  | some k =>
    let i2 := i.drop k
    let data := i.take k
    match mode with
    | .required =>
      if crlfBytes.isPrefixOf i2 then
        let after := i2.drop 2
        if after.isEmpty then .ok data () else .err (.error ⟨after, .crLf⟩)
      else .err (.error ⟨i2, .tag⟩)
    | .forbidden => .err (.error ⟨i2, .crLf⟩)
  | none =>
    match mode with
    | .required => .err (.error ⟨i, .crLf⟩)
    | .forbidden => .ok i ()

/-- The hex-pair step of `checksum_crlf` after a `*` was consumed:
`consumed(take(2), Count)` then `consumed(hex_digit0, IsA)` then `hex_u32`
(with the `as u8` truncation). -/
def checksumDigits (cc : Str) : LowRes (Option Nat) :=
  if cc.length < 2 then .err (.error ⟨cc, .eof⟩)
  else
    let two := cc.take 2
    let rest := cc.drop 2
    if rest.isEmpty then
      let ds := two.takeWhile isHexDigit
      let r2 := two.drop ds.length
      if r2.isEmpty then
        match hexU32 ds with
        | .ok rem v => .ok rem (some (v % 256))
        | .err e => .err e
      else .err (.error ⟨r2, .isA⟩)
    else .err (.error ⟨rest, .count⟩)

/-- Model of the source function `checksum_crlf(cc, le)`: run `crlf(le)` first,
then require (`char('*')`) or allow (`opt(char('*'))`) an asterisk; with an
asterisk, parse exactly two hex digits; without one, the remaining input must
be empty (`Count`-kind error otherwise) and the result is `none`. -/
def checksum_crlf (cc : ChecksumMode) (le : LineEndingMode) (i : Str) :
    LowRes (Option Nat) :=
  match crlfP le i with
  | .err e => .err e
  | .ok i _ =>
    match cc with
    | .required =>
      match chrLow 42 i with
      | .err e => .err e
      | .ok rest _ => checksumDigits rest
    | .optional =>
      match chrLow 42 i with
      | .ok rest _ => checksumDigits rest
      | .err _ =>
        if i.length ≠ 0 then .err (.error ⟨i, .count⟩) else .ok i none

/-- Model of the source function `checksum`: XOR fold over the bytes of the
input, returning the input unchanged together with the folded value. -/
def checksum (input : Str) : Str × Nat :=
  (input, input.foldl (fun acc b => acc ^^^ b) 0)

/-- Upper-case hex digit byte for a value below 16. -/
def hexUpper (d : Nat) : Nat := if d < 10 then 48 + d else 55 + d

/-- Model of the source function `format_checksum`: the two-character
upper-case hex rendering of a `u8` value (valid for `c < 256`). -/
def format_checksum (c : Nat) : Str := [hexUpper (c / 16), hexUpper (c % 16)]

/-- The `alt((take_until("*"), take_until("\r\n"), rest))` content split of the
framing parser: remaining tail first, content slice second. -/
def splitContent (i : Str) : Str × Str :=
  match findSub [42] i with
  | some k => (i.drop k, i.take k)
  | none =>
    match findSub crlfBytes i with
    | some k => (i.drop k, i.take k)
    | none => ([], i)

/-- Errors of the nested `checksum_crlf` and `char` parsers surface through the
crate error type as `ParsingError` (its `ParseError::from_error_kind`). -/
def liftNom : NErr NomError → NErr NmeaError
  | .error e => .error (.parsingError e)
  | .failure e => .failure (.parsingError e)
  | .incomplete => .incomplete

/-- Outcome of the framing stages that precede the content parser. -/
inductive FrameResult where
  | ok (content : Str)
  | err (e : NErr NmeaError)
deriving DecidableEq, Repr

/-- The framing stages of `Nmea0183ParserBuilder::build` (and of
`nmea0183_inner`): ASCII check, `$`, content split, `checksum_crlf`, checksum
comparison. Succeeds with the content slice to hand to the content parser. -/
def nmea0183_frame (ccm : ChecksumMode) (lem : LineEndingMode) (i : Str) :
    FrameResult :=
  if ¬ isAsciiStr i then .err (.error .nonAscii)
  else
    match chrLow 36 i with
    | .err e => .err (liftNom e)
    | .ok i _ =>
      let s := splitContent i
      match checksum_crlf ccm lem s.1 with
      | .err e => .err (liftNom e)
      | .ok _ ccv =>
        let calcCC := (checksum s.2).2
        match ccv with
        | some v =>
          if v ≠ calcCC then .err (.error (.checksumMismatch calcCC v))
          else .ok s.2
        | none => .ok s.2

/-- The full parser built by `Nmea0183ParserBuilder::build`: the framing
stages followed by the caller-supplied content parser on the content slice. -/
def nmea0183_run {α : Type} (ccm : ChecksumMode) (lem : LineEndingMode)
    (f : Str → NPRes α) (i : Str) : NPRes α :=
  match nmea0183_frame ccm lem i with
  | .ok data => f data
  | .err e => .err e

/-- A content parser that consumes all input and returns it (nom `rest`). -/
def restP (i : Str) : NPRes Str := .ok [] i

/-- A content parser that accepts any input, consuming nothing. -/
def acceptAll (i : Str) : NPRes Unit := .ok i ()

/-! Field combinator library (src/src/parse.rs). These parsers run inside the
content layer, so their error type is the crate `Error<I, E>` type and every
`from_error_kind` call produces a `parsingError`. -/

/-- `nom::character::complete::char` at the crate error level, used as the
comma separator of `NmeaParse` implementations. -/
def chrN (c : Nat) (i : Str) : NPRes Nat :=
  match i with
  | b :: rest => if b = c then .ok rest b else .err (.error (.parsingError ⟨i, .char⟩))
  | [] => .err (.error (.parsingError ⟨i, .char⟩))

/-- Byte is an ASCII decimal digit. -/
def isDigit (b : Nat) : Bool := 48 ≤ b && b ≤ 57

/-- Model of `nom::character::complete::u8`, the parser behind
`impl NmeaParse for u8`: longest digit prefix, `Digit`-kind error when it is
empty or the folded value overflows the `u8` range. -/
def u8P (i : Str) : NPRes Nat :=
  let ds := i.takeWhile isDigit
  if ds.isEmpty then .err (.error (.parsingError ⟨i, .digit⟩))
  else
    let v := ds.foldl (fun a b => a * 10 + (b - 48)) 0
    if v < 256 then .ok (i.drop ds.length) v
    else .err (.error (.parsingError ⟨i, .digit⟩))

/-- `nom::sequence::preceded`: run the separator, discard it, run the value
parser on the remainder. Default `NmeaParse::parse_preceded`. -/
def precededP {α β : Type} (sep : Str → NPRes β) (p : Str → NPRes α)
    (i : Str) : NPRes α :=
  match sep i with
  | .err e => .err e
  | .ok i _ => p i

/-- Model of `Option::<T>::parse_preceded`: consume the separator
unconditionally, attempt the inner parser; on inner failure yield `none`
without consuming exactly when the next separator is immediately present or
the input is empty, otherwise a `Verify`-kind error on the original input. -/
def optionParsePreceded {α β : Type} (sep : Str → NPRes β)
    (t : Str → NPRes α) (i : Str) : NPRes (Option α) :=
  let input := i
  match sep i with
  | .err e => .err e
  | .ok i _ =>
    match t i with
    | .ok i2 v => .ok i2 (some v)
    | .err _ =>
      match sep i with
      | .ok _ _ => .ok i none
      | .err _ =>
        if i.length = 0 then .ok i none
        else .err (.error (.parsingError ⟨input, .verify⟩))

/-- The element loop of `<[T; N] as NmeaParse>::parse`: each further element
is preceded by a comma; a recoverable failure becomes a `Count`-kind error at
the current position, unrecoverable failures propagate. -/
def arrLoop {α : Type} (p : Str → NPRes α) : Nat → Str → List α → NPRes (List α)
  | 0, i, acc => .ok i acc.reverse
  | n + 1, i, acc =>
    match precededP (chrN 44) p i with
    | .ok i1 next => arrLoop p n i1 (next :: acc)
    | .err (.error _) => .err (.error (.parsingError ⟨i, .count⟩))
    | .err e => .err e

/-- Model of `<[T; N] as NmeaParse>::parse` for `N ≥ 1` (for `N = 0` the
source indexes `elems[0]` out of bounds): first element unseparated, each of
the remaining `N - 1` preceded by a comma, recoverable failures reported as
`Count`-kind errors. -/
def arrParse {α : Type} (p : Str → NPRes α) (n : Nat) (i : Str) :
    NPRes (List α) :=
  match p i with
  | .ok i1 first => arrLoop p (n - 1) i1 [first]
  | .err (.error _) => .err (.error (.parsingError ⟨i, .count⟩))
  | .err e => .err e

/-! Derive-time attribute model (src/nmea0183-derive/src/meta.rs) and the
enum variant ordering check (src/nmea0183-derive/src/generate/enums/mod.rs). -/

/-- The closed set of directive tags (`MetaAttributeType`). -/
inductive MetaAttributeType where
  | Cond
  | Exact
  | Ignore
  | Into
  | Map
  | ParseAs
  | Parser
  | PreExec
  | PostExec
  | Selector
  | SelectionError
  | Separator
  | SkipAfter
  | SkipBefore
deriving DecidableEq, Repr

namespace MetaAttributeType

/-- Model of `MetaAttribute::is_top_level`. -/
def is_top_level : MetaAttributeType → Bool
  | .Exact | .PreExec | .PostExec | .Selector | .SelectionError
  | .Separator | .SkipAfter | .SkipBefore => true
  | _ => false

/-- Model of `MetaAttribute::is_field_level`. -/
def is_field_level : MetaAttributeType → Bool
  | .Exact | .Separator | .SelectionError => false
  | _ => true

/-- Model of `MetaAttributeType::allowed_multiple`. -/
def allowed_multiple : MetaAttributeType → Bool
  | .Cond | .Map | .PreExec | .PostExec => true
  | _ => false

end MetaAttributeType

/-- Outcome of validating an attribute list. -/
inductive AttrCheck where
  | ok (attrs : List MetaAttributeType)
  | err (msg : String)
deriving DecidableEq, Repr

/-- Whether an attribute validation succeeded. -/
def AttrCheck.isOk : AttrCheck → Bool
  | .ok _ => true
  | .err _ => false

/-- The validation fold of `parse_top_level_attributes`: every attribute must
be allowed at the top level and may appear at most once. -/
def validateTop (seen : List MetaAttributeType) :
    List MetaAttributeType → AttrCheck
  | [] => .ok []
  | t :: rest =>
    if ¬ t.is_top_level then .err "not allowed at the top level"
    else if t ∈ seen then .err "duplicate nmea attribute"
    else
      match validateTop (t :: seen) rest with
      | .ok l => .ok (t :: l)
      | .err m => .err m

/-- Model of `parse_top_level_attributes` on an already-extracted tag list. -/
def parse_top_level_attributes (l : List MetaAttributeType) : AttrCheck :=
  validateTop [] l

/-- The validation fold of `parse_field_level_attributes`: every attribute
must be allowed at the field level, non-repeatable ones may appear at most
once, and `parse_as` and `parser` exclude each other. -/
def validateField (seen : List MetaAttributeType) :
    List MetaAttributeType → AttrCheck
  | [] => .ok []
  | t :: rest =>
    if ¬ t.is_field_level then .err "not allowed at the field level"
    else if ¬ t.allowed_multiple ∧ t ∈ seen then .err "duplicate nmea attribute"
    else
      let seen2 := if t.allowed_multiple then seen else t :: seen
      if t = .ParseAs ∧ .Parser ∈ seen2 then
        .err "parse_as cannot be used with parser"
      else if t = .Parser ∧ .ParseAs ∈ seen2 then
        .err "parser cannot be used with parse_as"
      else
        match validateField seen2 rest with
        | .ok l => .ok (t :: l)
        | .err m => .err m

/-- Model of `parse_field_level_attributes` on an already-extracted tag list. -/
def parse_field_level_attributes (l : List MetaAttributeType) : AttrCheck :=
  validateField [] l

/-- Model of `Iterator::position`. -/
def findPos (p : String → Bool) : List String → Option Nat
  | [] => none
  | a :: t => if p a then some 0 else (findPos p t).map (fun k => k + 1)

/-- Outcome of assembling the enum variant dispatch. -/
inductive GenResult where
  | ok (default_case_handled : Bool)
  | err (msg : String)
deriving DecidableEq, Repr

/-- Whether the variant assembly succeeded. -/
def GenResult.isOk : GenResult → Bool
  | .ok _ => true
  | .err _ => false

/-- Model of `Enum::generate_variants` restricted to the selector ordering
logic it checks at construction time: if any arm has the wildcard selector,
the first wildcard arm must be the last arm. The token generation itself is
irrelevant to the check and is omitted. -/
def generate_variants (selectors : List String) : GenResult :=
  let default_case_handled := selectors.any (fun s => s = "_")
  if default_case_handled then
    match findPos (fun s => s = "_") selectors with
    | some p =>
      if p ≠ selectors.length - 1 then
        .err "Default case must be the last entry in the enum"
      else .ok true
    | none => .ok true
  else .ok false

/-- A second definition following the words of the implicit claim about the
framing boundary: the content slice is the prefix of the post-`$` input up to
the first `*`, else the first CRLF, else the end of input. -/
def specContentSlice (rest : Str) : Str :=
  match findSub [42] rest with
  | some k => rest.take k
  | none =>
    match findSub crlfBytes rest with
    | some k => rest.take k
    | none => rest

/-- A parser result that is never an unrecoverable failure nor incomplete
(nom `Err::Error` rather than `Err::Failure` or `Err::Incomplete`). -/
def recoverableOnly {α : Type} (r : NPRes α) : Prop :=
  ∀ e, r = .err e → ∃ e0, e = .error e0

/-! Helper lemmas. -/

theorem xor_lt_256 {a b : Nat} (ha : a < 256) (hb : b < 256) : a ^^^ b < 256 := by
  have h := Nat.bitwise_lt (f := bne) (n := 8) (by simpa using ha) (by simpa using hb)
  simpa using h

theorem foldl_xor_lt (l : Str) :
    ∀ acc, acc < 256 → (∀ b ∈ l, b < 128) →
      l.foldl (fun acc b => acc ^^^ b) acc < 256 := by
  induction l with
  | nil => intro acc hacc _; simpa using hacc
  | cons b t ih =>
    intro acc hacc hb
    simp only [List.foldl_cons]
    exact ih _ (xor_lt_256 hacc (Nat.lt_trans (hb b (by simp)) (by norm_num)))
      (fun x hx => hb x (by simp [hx]))

theorem checksum_lt_256 (l : Str) (h : ∀ b ∈ l, b < 128) : (checksum l).2 < 256 :=
  foldl_xor_lt l 0 (by norm_num) h

theorem findSub_single_append (c : Nat) (s r : Str) (h : c ∉ s) :
    findSub [c] (s ++ c :: r) = some s.length := by
  induction s with
  | nil => simp [findSub, List.isPrefixOf]
  | cons a t ih =>
    have hne : c ≠ a := fun hc => h (by simp [hc])
    have ht : c ∉ t := fun hc => h (by simp [hc])
    show findSub [c] (a :: (t ++ c :: r)) = some (t.length + 1)
    simp [findSub, List.isPrefixOf, hne, ih ht]

theorem findSub_prefix {pat : Str} : ∀ {i : Str} {k : Nat},
    findSub pat i = some k → pat.isPrefixOf (i.drop k) = true := by
  intro i
  induction i with
  | nil =>
    intro k h
    simp only [findSub] at h
    split at h
    · rename_i hp
      cases h
      exact hp
    · cases h
  | cons b t ih =>
    intro k h
    simp only [findSub] at h
    split at h
    · rename_i hp
      cases h
      exact hp
    · match hfs : findSub pat t with
      | none => rw [hfs] at h; cases h
      | some k0 =>
        rw [hfs] at h
        simp only [Option.map_some'] at h
        cases h
        simpa using ih hfs

theorem findSub_single_not_mem_take {c : Nat} : ∀ {i : Str} {k : Nat},
    findSub [c] i = some k → c ∉ i.take k := by
  intro i
  induction i with
  | nil => intro k _; simp
  | cons b t ih =>
    intro k h
    simp only [findSub] at h
    split at h
    · cases h; simp
    · match hfs : findSub [c] t with
      | none => rw [hfs] at h; cases h
      | some k0 =>
        rw [hfs] at h
        simp only [Option.map_some'] at h
        cases h
        rename_i hp
        have hne : c ≠ b := by
          intro hc
          exact hp (by simp [List.isPrefixOf, hc])
        intro hmem
        rcases List.mem_cons.mp (by simpa using hmem) with h1 | h2
        · exact hne h1
        · exact ih hfs h2

theorem not_mem_of_findSub_single_none {c : Nat} : ∀ {i : Str},
    findSub [c] i = none → c ∉ i := by
  intro i
  induction i with
  | nil => intro _; simp
  | cons b t ih =>
    intro h
    simp only [findSub] at h
    split at h
    · cases h
    · rename_i hp
      have hne : c ≠ b := by
        intro hc
        exact hp (by simp [List.isPrefixOf, hc])
      match hfs : findSub [c] t with
      | some k0 => rw [hfs] at h; simp at h
      | none =>
        intro hmem
        rcases List.mem_cons.mp hmem with h1 | h2
        · exact hne h1
        · exact ih hfs h2

theorem splitContent_no_star (content r : Str) (h : 42 ∉ content) :
    splitContent (content ++ 42 :: r) = (42 :: r, content) := by
  unfold splitContent
  rw [findSub_single_append 42 content r h]
  simp [List.drop_left, List.take_left]

theorem splitContent_snd_no_star (i : Str) : 42 ∉ (splitContent i).2 := by
  unfold splitContent
  cases h42 : findSub [42] i with
  | some k =>
    simpa using findSub_single_not_mem_take h42
  | none =>
    have hni : 42 ∉ i := not_mem_of_findSub_single_none h42
    cases hcr : findSub crlfBytes i with
    | some k =>
      intro hmem
      exact hni (List.take_subset k i (by simpa using hmem))
    | none => simpa using hni

theorem splitContent_snd_eq_spec (i : Str) :
    (splitContent i).2 = specContentSlice i := by
  unfold splitContent specContentSlice
  cases findSub [42] i with
  | some k => rfl
  | none =>
    cases findSub crlfBytes i with
    | some k => rfl
    | none => rfl

theorem hexUpper_lt_128 {d : Nat} (h : d < 16) : hexUpper d < 128 := by
  unfold hexUpper
  split <;> omega

theorem hexUpper_ne_13 {d : Nat} (h : d < 16) : hexUpper d ≠ 13 := by
  unfold hexUpper
  split <;> omega

set_option maxRecDepth 4000 in
theorem hex_roundtrip_forbidden :
    ∀ c, c < 256 → checksum_crlf .required .forbidden (42 :: format_checksum c)
      = .ok [] (some c) := by decide

set_option maxRecDepth 4000 in
theorem hex_roundtrip_required :
    ∀ c, c < 256 →
      checksum_crlf .required .required (42 :: (format_checksum c ++ [13, 10]))
        = .ok [] (some c) := by decide

theorem nmea0183_frame_cons (ccm : ChecksumMode) (lem : LineEndingMode)
    (rest : Str) (ha : isAsciiStr (36 :: rest) = true) :
    nmea0183_frame ccm lem (36 :: rest) =
      match checksum_crlf ccm lem (splitContent rest).1 with
      | .err e => .err (liftNom e)
      | .ok _ ccv =>
        match ccv with
        | some v =>
          if v ≠ (checksum (splitContent rest).2).2 then
            .err (.error (.checksumMismatch (checksum (splitContent rest).2).2 v))
          else .ok (splitContent rest).2
        | none => .ok (splitContent rest).2 := by
  unfold nmea0183_frame
  rw [if_neg (by simp [ha])]
  simp [chrLow]

/-! Claim theorems. -/

/-- C1, counterexample: for content `*` (a single asterisk, checksum 0x2A),
the framed input built as the claim prescribes is rejected with a
`Count`-kind error instead of succeeding, because the content split stops at
the first asterisk of the content itself. -/
theorem c1_counterexample :
    nmea0183_run .required .required restP
        (36 :: ([42] ++ 42 :: (format_checksum (checksum [42]).2 ++ [13, 10])))
      = .err (.error (.parsingError ⟨[65], .count⟩)) := by decide

/-- C1, amended: for every ASCII content that contains no `*` byte, parsing
`$ content * format_checksum(checksum(content)) CRLF` with
(Required, Required) succeeds, the slice handed to the content parser is
exactly the content, and the remaining input after a content parser that
consumes everything is empty. -/
theorem c1_framing_roundtrip (content : Str)
    (hascii : ∀ b ∈ content, b < 128) (hstar : 42 ∉ content) :
    nmea0183_run .required .required restP
        (36 :: (content ++ 42 :: (format_checksum (checksum content).2 ++ [13, 10])))
      = .ok [] content := by
  have hcs : (checksum content).2 < 256 := checksum_lt_256 content hascii
  have h1 : hexUpper ((checksum content).2 / 16) < 128 := hexUpper_lt_128 (by omega)
  have h2 : hexUpper ((checksum content).2 % 16) < 128 := hexUpper_lt_128 (by omega)
  have ha : isAsciiStr
      (36 :: (content ++ 42 :: (format_checksum (checksum content).2 ++ [13, 10])))
      = true := by
    simp [isAsciiStr, List.all_append, List.all_cons, format_checksum, h1, h2]
    exact fun x hx => hascii x hx
  unfold nmea0183_run
  rw [nmea0183_frame_cons _ _ _ ha]
  rw [splitContent_no_star _ _ hstar]
  simp only [hex_roundtrip_required _ hcs]
  simp [restP]

/-- C1, witness for the amended theorem at content `GPGGA`. -/
theorem c1_framing_roundtrip_witness :
    nmea0183_run .required .required restP
        (36 :: (strBytes "GPGGA" ++ 42 ::
          (format_checksum (checksum (strBytes "GPGGA")).2 ++ [13, 10])))
      = .ok [] (strBytes "GPGGA") :=
  c1_framing_roundtrip (strBytes "GPGGA") (by decide) (by decide)

/-- C2, counterexample: with (Required, Forbidden) and a content parser that
accepts anything, the input `$X*41` is rejected with a checksum mismatch
(the XOR of `X` is 0x58, not 0x41), not accepted as the claim states. -/
theorem c2_counterexample :
    nmea0183_run .required .forbidden acceptAll (strBytes "$X*41")
      = .err (.error (.checksumMismatch 0x58 0x41)) := by decide

/-- C2, amended: with (Required, Forbidden) and a content parser that accepts
any input, the framing parser accepts `$X*58` (0x58 being the checksum of
`X`) and rejects both `$X*58\r\n` and `$X`. -/
theorem c2_mode_matrix :
    nmea0183_run .required .forbidden acceptAll (strBytes "$X*58")
        = .ok (strBytes "X") ()
    ∧ nmea0183_run .required .forbidden acceptAll (strBytes "$X*58\r\n")
        = .err (.error (.parsingError ⟨[13, 10], .crLf⟩))
    ∧ nmea0183_run .required .forbidden acceptAll (strBytes "$X")
        = .err (.error (.parsingError ⟨[], .char⟩)) := by decide

/-- C4, counterexample: `a\r\nb` contains a CRLF, yet Required-mode `crlf`
fails with a `CrLf`-kind error because text follows the CRLF, contradicting
the claim that it succeeds whenever a CRLF occurs anywhere. -/
theorem c4_counterexample :
    (findSub crlfBytes (strBytes "a\r\nb")).isSome = true
    ∧ crlfP .required (strBytes "a\r\nb")
        = .err (.error ⟨strBytes "b", .crLf⟩) := by decide

/-- C4, amended: Required-mode `crlf` fails with a `CrLf`-kind error when no
CRLF occurs in the input; when the first CRLF ends the input it succeeds,
returning the pre-CRLF prefix and discarding the CRLF; when any text follows
the first CRLF it fails with a `CrLf`-kind error on that text. -/
theorem c4_crlf_required (i : Str) :
    (findSub crlfBytes i = none → crlfP .required i = .err (.error ⟨i, .crLf⟩))
    ∧ (∀ k, findSub crlfBytes i = some k →
        (i.length = k + 2 → crlfP .required i = .ok (i.take k) ())
        ∧ (i.length ≠ k + 2 →
            crlfP .required i = .err (.error ⟨i.drop (k + 2), .crLf⟩))) := by
  constructor
  · intro hn
    simp [crlfP, hn]
  · intro k hk
    have hpre : crlfBytes.isPrefixOf (i.drop k) = true := findSub_prefix hk
    have hlen2 : k + 2 ≤ i.length := by
      have hl := (List.isPrefixOf_iff_prefix.mp hpre).length_le
      simp only [crlfBytes, List.length_cons, List.length_nil, List.length_drop] at hl
      omega
    constructor
    · intro hlen
      have hnil : i.drop (k + 2) = [] := List.drop_eq_nil_iff.mpr (by omega)
      simp [crlfP, hk, if_pos hpre, List.drop_drop, hnil]
      exact List.isPrefixOf_iff_prefix.mp hpre
    · intro hlen
      have hne : ¬ i.drop (k + 2) = [] := by
        rw [List.drop_eq_nil_iff]; omega
      simp [crlfP, hk, if_pos hpre, List.drop_drop, List.isEmpty_iff, hne]
      exact List.isPrefixOf_iff_prefix.mp hpre

/-- C4, witness: the amended theorem applied at the input `data\r\n`. -/
theorem c4_crlf_required_witness :
    crlfP .required (strBytes "data\r\n") = .ok (strBytes "data") () := by
  have h := ((c4_crlf_required (strBytes "data\r\n")).2 4 (by decide)).1 (by decide)
  simpa using h

/-- C7: every u8 checksum value round-trips: formatting with
`format_checksum` and parsing back through `checksum_crlf` in Required
checksum mode (with the line-ending policy satisfied, in both line-ending
modes) yields the same value. -/
theorem c7_checksum_roundtrip (c : Nat) (h : c < 256) :
    checksum_crlf .required .forbidden (42 :: format_checksum c)
        = .ok [] (some c)
    ∧ checksum_crlf .required .required (42 :: (format_checksum c ++ [13, 10]))
        = .ok [] (some c) :=
  ⟨hex_roundtrip_forbidden c h, hex_roundtrip_required c h⟩

/-- C7, witness at the value 0x41. -/
theorem c7_checksum_roundtrip_witness :
    checksum_crlf .required .forbidden (42 :: format_checksum 65)
        = .ok [] (some 65)
    ∧ checksum_crlf .required .required (42 :: (format_checksum 65 ++ [13, 10]))
        = .ok [] (some 65) :=
  c7_checksum_roundtrip 65 (by decide)

/-- C3: `$X*99\r\n` fails with ChecksumMismatch expected 0x58 (the XOR of
`X`) found 0x99; in general, whenever the declared checksum is present and
differs from the one computed over the content slice, the framing parser
returns ChecksumMismatch with expected the computed value and found the
declared one; and in Optional mode with no checksum present, the framing
result is exactly the content parser result, with no checksum comparison. -/
theorem c3_checksum_mismatch :
    nmea0183_frame .required .required (strBytes "$X*99\r\n")
        = .err (.error (.checksumMismatch 0x58 0x99))
    ∧ (∀ (ccm : ChecksumMode) (lem : LineEndingMode) (rest rem : Str) (d : Nat),
        isAsciiStr (36 :: rest) = true →
        checksum_crlf ccm lem (splitContent rest).1 = .ok rem (some d) →
        d ≠ (checksum (splitContent rest).2).2 →
        nmea0183_frame ccm lem (36 :: rest)
          = .err (.error (.checksumMismatch (checksum (splitContent rest).2).2 d)))
    ∧ (∀ (lem : LineEndingMode) {α : Type} (f : Str → NPRes α) (rest rem : Str),
        isAsciiStr (36 :: rest) = true →
        checksum_crlf .optional lem (splitContent rest).1 = .ok rem none →
        nmea0183_run .optional lem f (36 :: rest) = f (splitContent rest).2) := by
  refine ⟨by decide, ?_, ?_⟩
  · intro ccm lem rest rem d ha hcc hne
    rw [nmea0183_frame_cons _ _ _ ha, hcc]
    simp [hne]
  · intro lem α f rest rem ha hcc
    unfold nmea0183_run
    rw [nmea0183_frame_cons _ _ _ ha, hcc]

/-- C3, witness: the general parts applied at `$X*99\r\n` and `$AB`. -/
theorem c3_checksum_mismatch_witness :
    nmea0183_frame .required .required (36 :: strBytes "X*99\r\n")
        = .err (.error (.checksumMismatch
            (checksum (splitContent (strBytes "X*99\r\n")).2).2 153))
    ∧ nmea0183_run .optional .forbidden restP (36 :: strBytes "AB")
        = restP (splitContent (strBytes "AB")).2 :=
  ⟨c3_checksum_mismatch.2.1 .required .required (strBytes "X*99\r\n") [] 153
      (by decide) (by decide) (by decide),
   c3_checksum_mismatch.2.2 .forbidden restP (strBytes "AB") []
      (by decide) (by decide)⟩

/-- C10, counterexample: on `$A\r\nB*04\r\n` with (Required, Required) the
framing succeeds and the content slice handed onward is `A\r\nB`, which
contains a CRLF, contradicting the claimed invariant. -/
theorem c10_counterexample :
    nmea0183_frame .required .required (strBytes "$A\r\nB*04\r\n")
        = .ok (strBytes "A\r\nB")
    ∧ (findSub crlfBytes (strBytes "A\r\nB")).isSome = true := by decide

/-- C10, amended: whenever the framing succeeds and hands a content slice to
the content parser, that slice contains no `*` byte and is exactly the prefix
of the post-`$` input up to the first `*`, else the first CRLF, else the end
of input (it may however contain a CRLF when a `*` occurs after it). -/
theorem c10_content_no_star (ccm : ChecksumMode) (lem : LineEndingMode)
    (i data : Str) (h : nmea0183_frame ccm lem i = .ok data) :
    42 ∉ data ∧ ∃ rest, i = 36 :: rest ∧ data = specContentSlice rest := by
  unfold nmea0183_frame at h
  split at h
  · simp at h
  · cases i with
    | nil => simp [chrLow] at h
    | cons b rest =>
      by_cases hb : b = 36
      · subst hb
        simp [chrLow] at h
        have hdata : data = (splitContent rest).2 := by
          cases hcc : checksum_crlf ccm lem (splitContent rest).1 with
          | err e => rw [hcc] at h; simp at h
          | ok rem ccv =>
            rw [hcc] at h
            cases ccv with
            | none => simp at h; exact h.symm
            | some v =>
              rcases eq_or_ne v ((checksum (splitContent rest).2).2) with hveq | hveq
              · simp [hveq] at h; exact h.symm
              · simp [hveq] at h
        refine ⟨?_, rest, rfl, ?_⟩
        · rw [hdata]; exact splitContent_snd_no_star rest
        · rw [hdata]; exact splitContent_snd_eq_spec rest
      · simp [chrLow, hb] at h

/-- C10, witness: the amended theorem applied at `$X*58` in
(Required, Forbidden) mode, where the content slice is `X`. -/
theorem c10_content_no_star_witness :
    42 ∉ strBytes "X"
    ∧ ∃ rest, strBytes "$X*58" = 36 :: rest
        ∧ strBytes "X" = specContentSlice rest :=
  c10_content_no_star .required .forbidden (strBytes "$X*58") (strBytes "X")
    (by decide)

/-- C5: `Option::parse_preceded` consumes the separator unconditionally
first; on inner success it wraps the value in `some`; on inner failure it
yields `none` without further consumption exactly when the next separator is
immediately present or the remaining input is empty, and fails with a
`Verify`-kind error otherwise; concretely `,,4` parsed as two consecutive
optional u8 fields, each preceded by a comma, yields none then some 4 with
all input consumed. -/
theorem c5_option_parse_preceded :
    (∀ (α β : Type) (sep : Str → NPRes β) (t : Str → NPRes α) (i : Str) e,
        sep i = .err e → optionParsePreceded sep t i = .err e)
    ∧ (∀ (α β : Type) (sep : Str → NPRes β) (t : Str → NPRes α)
        (i i1 i2 : Str) (x : β) (v : α),
        sep i = .ok i1 x → t i1 = .ok i2 v →
        optionParsePreceded sep t i = .ok i2 (some v))
    ∧ (∀ (α β : Type) (sep : Str → NPRes β) (t : Str → NPRes α)
        (i i1 : Str) (x : β) e,
        sep i = .ok i1 x → t i1 = .err e →
        optionParsePreceded sep t i =
          (if (sep i1).isOk = true ∨ i1 = [] then .ok i1 none
           else .err (.error (.parsingError ⟨i, .verify⟩))))
    ∧ optionParsePreceded (chrN 44) u8P (strBytes ",,4")
        = .ok (strBytes ",4") none
    ∧ optionParsePreceded (chrN 44) u8P (strBytes ",4") = .ok [] (some 4) := by
  refine ⟨?_, ?_, ?_, by decide, by decide⟩
  · intro α β sep t i e hsep
    simp [optionParsePreceded, hsep]
  · intro α β sep t i i1 i2 x v hsep ht
    simp [optionParsePreceded, hsep, ht]
  · intro α β sep t i i1 x e hsep ht
    simp only [optionParsePreceded, hsep, ht]
    cases hsep2 : sep i1 with
    | ok a b => simp [PResult.isOk]
    | err e2 =>
      simp only [PResult.isOk]
      by_cases hi : i1 = []
      · subst hi; simp
      · have hlen : ¬ i1.length = 0 := by
          simpa [List.length_eq_zero] using hi
        simp [hi, hlen]

/-- C5, witness: the separator-first part applied on empty input, where the
comma separator itself fails. -/
theorem c5_option_parse_preceded_witness :
    optionParsePreceded (chrN 44) u8P []
      = .err (.error (.parsingError ⟨[], .char⟩)) :=
  c5_option_parse_preceded.1 Nat Nat (chrN 44) u8P []
    (.error (.parsingError ⟨[], .char⟩)) (by decide)

theorem u8P_recoverable : ∀ j, recoverableOnly (u8P j) := by
  intro j e h
  simp only [u8P] at h
  split at h
  · cases h; exact ⟨_, rfl⟩
  · split at h
    · cases h
    · cases h; exact ⟨_, rfl⟩

theorem chrN_recoverable (c : Nat) : ∀ j, recoverableOnly (chrN c j) := by
  intro j e h
  cases j with
  | nil => cases h; exact ⟨_, rfl⟩
  | cons b t =>
    simp only [chrN] at h
    split at h
    · cases h
    · cases h; exact ⟨_, rfl⟩

theorem precededP_recoverable {α β : Type} (sep : Str → NPRes β)
    (p : Str → NPRes α) (hsep : ∀ j, recoverableOnly (sep j))
    (hp : ∀ j, recoverableOnly (p j)) :
    ∀ j, recoverableOnly (precededP sep p j) := by
  intro j e h
  simp only [precededP] at h
  split at h
  · cases h; exact hsep j _ (by assumption)
  · exact hp _ _ h

theorem arrLoop_err_count {α : Type} (p : Str → NPRes α)
    (hp : ∀ j, recoverableOnly (p j)) :
    ∀ (m : Nat) (i : Str) (acc : List α) e, arrLoop p m i acc = .err e →
      ∃ inp, e = .error (.parsingError ⟨inp, .count⟩) := by
  intro m
  induction m with
  | zero => intro i acc e h; simp [arrLoop] at h
  | succ n ih =>
    intro i acc e h
    simp only [arrLoop] at h
    split at h
    · exact ih _ _ e h
    · cases h; exact ⟨i, rfl⟩
    · rename_i e2 hne heq
      obtain ⟨e0, he0⟩ := precededP_recoverable (chrN 44) p
        (chrN_recoverable 44) hp i e2 heq
      exact (hne e0 he0).elim

theorem arrLoop_ok_length {α : Type} (p : Str → NPRes α) :
    ∀ (m : Nat) (i rem : Str) (acc l : List α), arrLoop p m i acc = .ok rem l →
      l.length = m + acc.length := by
  intro m
  induction m with
  | zero =>
    intro i rem acc l h
    simp only [arrLoop] at h
    cases h
    simp
  | succ n ih =>
    intro i rem acc l h
    simp only [arrLoop] at h
    split at h
    · have hlen := ih _ _ _ _ h
      simp only [List.length_cons] at hlen
      omega
    · cases h
    · cases h

/-- C6: the fixed-size array parser parses exactly N elements, the first
unseparated and each further one preceded by a comma, and any recoverable
failure before N elements are obtained is reported as a `Count`-kind error;
concretely a 3-element u8 array fails with a `Count`-kind error on `1,2` and
succeeds with `[1, 2, 3]` and empty remainder on `1,2,3`. -/
theorem c6_array_arity :
    (∀ (α : Type) (p : Str → NPRes α) (n : Nat) (i : Str),
        (∀ j, recoverableOnly (p j)) → ∀ e, arrParse p n i = .err e →
        ∃ inp, e = .error (.parsingError ⟨inp, .count⟩))
    ∧ (∀ (α : Type) (p : Str → NPRes α) (n : Nat) (i rem : Str) (l : List α),
        1 ≤ n → arrParse p n i = .ok rem l → l.length = n)
    ∧ arrParse u8P 3 (strBytes "1,2")
        = .err (.error (.parsingError ⟨[], .count⟩))
    ∧ arrParse u8P 3 (strBytes "1,2,3") = .ok [] [1, 2, 3] := by
  refine ⟨?_, ?_, by decide, by decide⟩
  · intro α p n i hp e h
    simp only [arrParse] at h
    split at h
    · exact arrLoop_err_count p hp _ _ _ e h
    · cases h; exact ⟨i, rfl⟩
    · rename_i e2 hne heq
      obtain ⟨e0, he0⟩ := hp i e2 heq
      exact (hne e0 he0).elim
  · intro α p n i rem l hn h
    simp only [arrParse] at h
    split at h
    · have hlen := arrLoop_ok_length p _ _ _ _ _ h
      simp only [List.length_cons, List.length_nil] at hlen
      omega
    · cases h
    · cases h

/-- C6, witness: the general parts applied at the u8 parser with N = 3. -/
theorem c6_array_arity_witness :
    (∃ inp, (NErr.error (NmeaError.parsingError ⟨[], .count⟩) : NErr NmeaError)
        = .error (.parsingError ⟨inp, .count⟩))
    ∧ ([1, 2, 3] : List Nat).length = 3 :=
  ⟨c6_array_arity.1 Nat u8P 3 (strBytes "1,2") u8P_recoverable
      (.error (.parsingError ⟨[], .count⟩)) (by decide),
   c6_array_arity.2.1 Nat u8P 3 (strBytes "1,2,3") [] [1, 2, 3]
      (by decide) (by decide)⟩

theorem validateField_bad {t : MetaAttributeType}
    (ht : t.is_field_level = false) :
    ∀ (l seen : List MetaAttributeType), t ∈ l →
      (validateField seen l).isOk = false := by
  intro l
  induction l with
  | nil => intro seen h; simp at h
  | cons a rest ih =>
    intro seen hmem
    by_cases hta : a = t
    · subst hta
      simp [validateField, ht, AttrCheck.isOk]
    · have hrest : t ∈ rest := by
        rcases List.mem_cons.mp hmem with h1 | h2
        · exact absurd h1.symm hta
        · exact h2
      simp only [validateField]
      repeat' split
      all_goals simp_all [AttrCheck.isOk]
      all_goals first
        | (rename_i l2 heq
           have hin := ih seen
           rw [heq] at hin
           simp at hin)
        | (rename_i l2 heq
           have hin := ih (a :: seen)
           rw [heq] at hin
           simp at hin)

theorem validateTop_bad {t : MetaAttributeType}
    (ht : t.is_top_level = false) :
    ∀ (l seen : List MetaAttributeType), t ∈ l →
      (validateTop seen l).isOk = false := by
  intro l
  induction l with
  | nil => intro seen h; simp at h
  | cons a rest ih =>
    intro seen hmem
    by_cases hta : a = t
    · subst hta
      simp [validateTop, ht, AttrCheck.isOk]
    · have hrest : t ∈ rest := by
        rcases List.mem_cons.mp hmem with h1 | h2
        · exact absurd h1.symm hta
        · exact h2
      simp only [validateTop]
      repeat' split
      all_goals simp_all [AttrCheck.isOk]
      all_goals (rename_i l2 heq
                 have hin := ih (a :: seen)
                 rw [heq] at hin
                 simp at hin)

/-- C8, counterexample: the `selector` directive is accepted by field-level
attribute validation, contradicting the claim that it is top-level-only and
rejected at field placement. -/
theorem c8_counterexample :
    parse_field_level_attributes [.Selector] = .ok [.Selector] := by decide

/-- C8, amended: field-level validation rejects exactly `exact`, `separator`
and `selection_error`; top-level validation rejects exactly `cond`, `ignore`,
`into`, `map`, `parse_as` and `parser`; the remaining directives `selector`,
`pre_exec`, `post_exec`, `skip_before` and `skip_after` are accepted at both
placements; and a directive disallowed at a placement is rejected wherever it
occurs in the attribute list. -/
theorem c8_placement (t : MetaAttributeType) :
    ((parse_field_level_attributes [t]).isOk = true
      ↔ t ∉ ([.Exact, .Separator, .SelectionError] : List MetaAttributeType))
    ∧ ((parse_top_level_attributes [t]).isOk = true
      ↔ t ∈ ([.Exact, .PreExec, .PostExec, .Selector, .SelectionError,
              .Separator, .SkipAfter, .SkipBefore] : List MetaAttributeType))
    ∧ (∀ l, t ∈ l → t.is_field_level = false →
        (parse_field_level_attributes l).isOk = false)
    ∧ (∀ l, t ∈ l → t.is_top_level = false →
        (parse_top_level_attributes l).isOk = false) := by
  refine ⟨?_, ?_, ?_, ?_⟩
  · cases t <;> decide
  · cases t <;> decide
  · intro l hl ht
    exact validateField_bad ht l [] hl
  · intro l hl ht
    exact validateTop_bad ht l [] hl

/-- C8, witness: the list-level parts applied at a `separator` directive in
second field position and a `parser` directive in second top position. -/
theorem c8_placement_witness :
    (parse_field_level_attributes [.Cond, .Separator]).isOk = false
    ∧ (parse_top_level_attributes [.Selector, .Parser]).isOk = false :=
  ⟨(c8_placement .Separator).2.2.1 [.Cond, .Separator] (by decide) (by decide),
   (c8_placement .Parser).2.2.2 [.Selector, .Parser] (by decide) (by decide)⟩

theorem findPos_none_any {p : String → Bool} :
    ∀ {l : List String}, findPos p l = none → l.any p = false := by
  intro l
  induction l with
  | nil => intro _; simp
  | cons a t ih =>
    intro h
    simp only [findPos] at h
    split at h
    · cases h
    · rename_i hpa
      cases hft : findPos p t with
      | some k => rw [hft] at h; simp at h
      | none =>
        simp only [List.any_cons, ih hft, Bool.or_false]
        simpa using hpa

theorem findPos_some_struct {p : String → Bool} :
    ∀ {l : List String} {k : Nat}, findPos p l = some k →
      ∃ pre x post, l = pre ++ x :: post ∧ pre.length = k ∧ p x = true
        ∧ ∀ y ∈ pre, p y = false := by
  intro l
  induction l with
  | nil => intro k h; simp [findPos] at h
  | cons a t ih =>
    intro k h
    simp only [findPos] at h
    split at h
    · rename_i hpa
      cases h
      exact ⟨[], a, t, rfl, rfl, hpa, by simp⟩
    · rename_i hpa
      cases hft : findPos p t with
      | none => rw [hft] at h; simp at h
      | some k0 =>
        rw [hft] at h
        simp only [Option.map_some'] at h
        cases h
        obtain ⟨pre, x, post, he, hlen, hpx, hpre⟩ := ih hft
        refine ⟨a :: pre, x, post, by simp [he], by simp [hlen], hpx, ?_⟩
        intro y hy
        rcases List.mem_cons.mp hy with h1 | h2
        · subst h1; simpa using hpa
        · exact hpre y h2

theorem generate_variants_isOk_iff (l : List String) :
    (generate_variants l).isOk = true ↔
      (l.count "_" ≤ 1 ∧ ("_" ∈ l → l.getLast? = some "_")) := by
  by_cases hany : l.any (fun s => s = "_") = true
  · cases hfp : findPos (fun s => s = "_") l with
    | none => exact absurd (findPos_none_any hfp) (by simp [hany])
    | some p =>
      obtain ⟨pre, x, post, he, hlen, hpx, hpre⟩ := findPos_some_struct hfp
      have hx : x = "_" := by simpa using hpx
      subst hx
      have hpre0 : pre.count "_" = 0 := by
        rw [List.count_eq_zero]
        intro hmem
        have hy := hpre _ hmem
        simp at hy
      have hcount : l.count "_" = post.count "_" + 1 := by
        subst he
        simp [List.count_append, List.count_cons, hpre0]
      have hlength : l.length = pre.length + 1 + post.length := by
        subst he; simp; omega
      have hok : (generate_variants l).isOk = true ↔ p = l.length - 1 := by
        simp only [generate_variants, hany, if_true, hfp]
        by_cases hp : p = l.length - 1
        · simp [hp, GenResult.isOk]
        · simp [hp, GenResult.isOk]
      rw [hok]
      constructor
      · intro hp
        have hpost : post = [] := by
          rw [← List.length_eq_zero]
          omega
        subst hpost
        refine ⟨?_, fun _ => ?_⟩
        · simp only [List.count_nil] at hcount
          omega
        · rw [he]
          exact List.getLast?_concat pre
      · rintro ⟨hc1, hlast⟩
        have hmem : "_" ∈ l := by rw [he]; simp
        have hgl := hlast hmem
        by_contra hp
        have hpostne : post ≠ [] := by
          intro h0
          subst h0
          simp only [List.length_nil] at hlength
          exact hp (by omega)
        rcases List.eq_nil_or_concat post with h0 | ⟨ps, z, hz⟩
        · exact hpostne h0
        · have hassoc : l = (pre ++ "_" :: ps) ++ [z] := by
            rw [he, hz]; simp
          have hz2 : z = "_" := by
            have := hgl
            rw [hassoc, List.getLast?_concat] at this
            exact Option.some_injective _ this
          have hzm : "_" ∈ post := by rw [hz, hz2]; simp
          have : 0 < post.count "_" := List.count_pos_iff.mpr hzm
          omega
  · have hnot : "_" ∉ l := by
      intro hmem
      exact hany (List.any_eq_true.mpr ⟨"_", hmem, by simp⟩)
    have hok : (generate_variants l).isOk = true := by
      simp [generate_variants, hany, GenResult.isOk]
    rw [hok]
    simp only [true_iff]
    constructor
    · rw [List.count_eq_zero.mpr hnot]
      omega
    · intro hmem
      exact absurd hmem hnot

/-- C9: assembling the enum variant dispatch succeeds exactly when at most
one arm has the wildcard selector and, if present, it is the last arm; in
particular a non-wildcard arm after a wildcard arm makes the construction
fail. The check runs when the dispatch is generated, not at parse time. -/
theorem c9_wildcard_last (sels : List String) :
    ((generate_variants sels).isOk = true ↔
      (sels.count "_" ≤ 1 ∧ ("_" ∈ sels → sels.getLast? = some "_")))
    ∧ (∀ l1 l2 s, sels = l1 ++ "_" :: l2 → s ∈ l2 → s ≠ "_" →
        (generate_variants sels).isOk = false) := by
  refine ⟨generate_variants_isOk_iff sels, ?_⟩
  intro l1 l2 s hse hs _
  by_contra hok
  rw [Bool.not_eq_false] at hok
  obtain ⟨hc, hlast⟩ := (generate_variants_isOk_iff sels).mp hok
  subst hse
  have hmem : "_" ∈ l1 ++ "_" :: l2 := by simp
  have hgl := hlast hmem
  have hl2ne : l2 ≠ [] := by
    intro h0
    subst h0
    simp at hs
  rcases List.eq_nil_or_concat l2 with h0 | ⟨ps, z, hz⟩
  · exact hl2ne h0
  · have hassoc : l1 ++ "_" :: l2 = (l1 ++ "_" :: ps) ++ [z] := by
      rw [hz]; simp
    have hz2 : z = "_" := by
      rw [hassoc, List.getLast?_concat] at hgl
      exact Option.some_injective _ hgl
    have hzm : "_" ∈ l2 := by rw [hz, hz2]; simp
    have hpos : 0 < l2.count "_" := List.count_pos_iff.mpr hzm
    have : (l1 ++ "_" :: l2).count "_" = l1.count "_" + l2.count "_" + 1 := by
      simp [List.count_append, List.count_cons]
      omega
    omega

/-- C9, witness: a wildcard arm followed by a non-wildcard arm is rejected. -/
theorem c9_wildcard_last_witness :
    (generate_variants ["_", "GGA"]).isOk = false :=
  (c9_wildcard_last ["_", "GGA"]).2 [] ["GGA"] "GGA" rfl (by simp) (by decide)

end Nmea0183
